import Mathlib

/-!
Verification development for the PenpalsNow resumable paginated crawl engine
(`src/scraper.js`). The definitions below are a shallow embedding of the
source: pure computations (response-body parsing, backoff arithmetic, page
parsing) are translated directly; network and file I/O are abstracted into
explicit oracles (a deterministic page chain with per-page fetch outcomes,
an email-lookup oracle, a file state), and the orchestrator's control flow
(`scrapeAllPages`, `main`) is translated statement by statement into a
state-passing function that also emits an event trace (fetch attempts,
per-page processing, store saves) so that checkpointing and termination
claims can be stated.
-/

namespace Penpals

/-- `ADS_PER_PAGE = 5` from the source. -/
def ADS_PER_PAGE : Nat := 5

/-- The test performed by `EMAIL_REGEX = /^[^\s@]+@[^\s@]+\.[^\s@]+$/` on a
string: no whitespace anywhere, exactly one `@`, a nonempty local part before
the `@`, and after the `@` a dot that has at least one character on each
side. -/
def emailShape (s : String) : Bool :=
  let cs := s.data
  cs.all (fun c => !c.isWhitespace) &&
  cs.count '@' == 1 &&
  !(cs.takeWhile (fun c => c != '@')).isEmpty &&
  ((((cs.dropWhile (fun c => c != '@')).drop 1).drop 1).dropLast.contains '.')

/-- JSON values as produced by `JSON.parse` in `fetchEmail`. -/
inductive Json where
  | jnull : Json
  | jbool (b : Bool) : Json
  | jnum (n : Int) : Json
  | jstr (s : String) : Json
  | jobj (fields : List (String × Json)) : Json
  | jarr (elems : List Json) : Json

/-- JavaScript truthiness of a JSON value, as used by `if (json.email)`. -/
def Json.truthy : Json → Bool
  | .jnull => false
  | .jbool b => b
  | .jnum n => n != 0
  | .jstr s => !s.isEmpty
  | .jobj _ => true
  | .jarr _ => true

/-- JavaScript property access `json.email`: defined only on objects
(`none` models `undefined`; on `null` the access throws, which the source
catches and which likewise ends in `return null`). -/
def jsPropEmail : Json → Option Json
  | .jobj fields => (fields.find? (fun kv => kv.1 == "email")).map (fun kv => kv.2)
  | _ => none

/-- The check `typeof json === 'string' && json.match(EMAIL_REGEX)` followed
by `return json`, else fall through to `return null`. -/
def jsonStrCase : Json → Option Json
  | .jstr s => if emailShape s then some (.jstr s) else none
  | _ => none

/-- Body handling of `fetchEmail` (scraper.js lines 280-287), given the
trimmed response text and the result of `JSON.parse` on it (`none` when the
parse throws): `if (trimmed.match(EMAIL_REGEX)) return trimmed;` then inside
a try block `if (json.email) return json.email;` then
`if (typeof json === 'string' && json.match(EMAIL_REGEX)) return json;`
and finally `return null`. -/
def fetchEmail (trimmed : String) (parsed : Option Json) : Option Json :=
  if emailShape trimmed then some (.jstr trimmed)
  else
    match parsed with
    | none => none
    | some j =>
      match jsPropEmail j with
      | some v => if v.truthy then some v else jsonStrCase j
      | none => jsonStrCase j

/-- Response handling as the amended claim describes it: a bare body of
email shape is returned as is; a structured (object) payload's `email` field
is returned whenever it is present and truthy, with no shape validation; a
JSON-encoded bare string is returned only when it has email shape; all other
content yields `null`. -/
def fetchEmailSpec (trimmed : String) (parsed : Option Json) : Option Json :=
  if emailShape trimmed then some (.jstr trimmed)
  else
    match parsed with
    | some (.jobj fields) =>
      match (fields.find? (fun kv => kv.1 == "email")).map (fun kv => kv.2) with
      | some v => if v.truthy then some v else none
      | none => none
    | some (.jstr s) => if emailShape s then some (.jstr s) else none
    | _ => none

/-- `FETCH_EMAIL_RETRIES = 4` from the source. -/
def FETCH_EMAIL_RETRIES : Nat := 4

/-- `FETCH_PAGE_RETRIES = 4` from the source. -/
def FETCH_PAGE_RETRIES : Nat := 4

/-- The backoff delays awaited by the retry loops of `fetchEmail` and
`fetchPage`: attempts are numbered from `attempt`; `ok n` says whether
attempt `n` succeeds; after a failed attempt that is not the last one the
loop awaits `base * 2 ^ (attempt - 1)` milliseconds
(`backoffMs = 1000 * Math.pow(2, attempt - 1)` resp. `2000 * ...`).
The list collects the delays in order. -/
def retryDelaysGo (base : Nat) (ok : Nat → Bool) : Nat → Nat → List Nat
  | _, 0 => []
  | attempt, fuel + 1 =>
    if ok attempt then []
    else if fuel = 0 then []
    else base * 2 ^ (attempt - 1) :: retryDelaysGo base ok (attempt + 1) fuel

/-- Delays awaited by `fetchPage`'s retry loop (base 2000 ms, 4 attempts). -/
def fetchPageDelays (ok : Nat → Bool) : List Nat :=
  retryDelaysGo 2000 ok 1 FETCH_PAGE_RETRIES

/-- Delays awaited by `fetchEmail`'s retry loop (base 1000 ms, 4 attempts). -/
def fetchEmailDelays (ok : Nat → Bool) : List Nat :=
  retryDelaysGo 1000 ok 1 FETCH_EMAIL_RETRIES

/-- One entry marker (`a.showemail.ppadvaluebold` element) of a listing
page, in document order: its optional `id` attribute and the opaque label
fields extracted from its enclosing block by `getAdFieldsFromBlock`. -/
structure Marker where
  id : Option String
  fields : String
deriving DecidableEq, Repr

/-- Parsed view of one listing page's HTML: the entry markers in document
order, and whether the "Next 5 pen pal ads" form is present
(`getNextFormData` returns non-null). The continuation token's contents are
abstracted because in the deterministic chain model submitting page `p`'s
form always yields page `p + 1`. -/
structure PageDoc where
  markers : List Marker
  hasNextForm : Bool
deriving DecidableEq, Repr

/-- `parsePage` (scraper.js lines 332-346): iterate the marker elements,
stop at index `ADS_PER_PAGE`, skip markers without an `id`, and collect
`{ id, ...adFields }` for the rest. -/
def parsePage (doc : PageDoc) : List (String × String) :=
  (doc.markers.take ADS_PER_PAGE).filterMap
    (fun m => m.id.map (fun i => (i, m.fields)))

/-- One output row of the crawl: the ad's label fields and the resolved
email (`null` modelled as `none`). -/
structure Record where
  fields : String
  email : Option String
deriving DecidableEq, Repr

/-- The normalisation `email || null` applied when a row is pushed:
a falsy value (here the empty string) becomes `null`. -/
def normEmail : Option String → Option String
  | some s => if s.isEmpty then none else some s
  | none => none

/-- `scrapeCurrentPage` (scraper.js lines 431-447): parse the page, and for
each parsed ad resolve the email through the lookup oracle `em` (the net
result of `fetchEmail` for that id, with a thrown error caught as `null`),
pushing `{ ...fields, email: email || null }`. -/
def scrapeCurrentPage (em : String → Option String) (doc : PageDoc) : List Record :=
  (parsePage doc).map (fun p => { fields := p.2, email := normEmail (em p.1) })

/-- The deterministic remote world seen by one run: `doc p` is the parsed
content of the `p`-th page along the chain (page 1 is the listing URL, page
`p + 1` is the page reached by submitting page `p`'s next form), `fetchOk p`
says whether fetching page `p` succeeds within `fetchPage`'s retry budget
(false = `fetchPage` throws after exhausting retries), and `emailOf`
resolves a marker id to its revealed email. -/
structure Chain where
  doc : Nat → PageDoc
  fetchOk : Nat → Bool
  emailOf : String → Option String

/-- Records produced by scraping page `p` of the chain. -/
def Chain.scr (ch : Chain) (p : Nat) : List Record :=
  scrapeCurrentPage ch.emailOf (ch.doc p)

/-- Observable events of a run: a page fetch attempt, the completion of one
page's processing (the page's revealed records and the accumulated list so
far, as logged by `console.log`), and a store save (`saveToExcel`) with the
full contents written. -/
inductive Ev where
  | fetched (page : Nat) : Ev
  | processed (ads : List Record) (acc : List Record) : Ev
  | saved (contents : List Record) : Ev
deriving DecidableEq, Repr

/-- The `while (pageNum <= maxPages)` loop of `scrapeAllPages` (scraper.js
lines 490-509), with `fuel` the number of page iterations the ceiling still
allows and `pos` the current position on the chain: fetch the page (break
out of the loop if the fetch throws after retries), scrape it, append its
records, stop on an empty page, stop when no next form is present, otherwise
continue with the next page. Returns the accumulated records and the event
trace. -/
def crawlLoop (ch : Chain) : Nat → Nat → List Record → List Record × List Ev
  | 0, _, acc => (acc, [])
  | fuel + 1, pos, acc =>
    if ch.fetchOk pos then
      let ads := ch.scr pos
      let acc2 := acc ++ ads
      if ads.isEmpty then (acc2, [.fetched pos, .processed ads acc2])
      else if (ch.doc pos).hasNextForm then
        let r := crawlLoop ch fuel (pos + 1) acc2
        (r.1, .fetched pos :: .processed ads acc2 :: r.2)
      else (acc2, [.fetched pos, .processed ads acc2])
    else (acc, [.fetched pos])

/-- The resume fast-forward loop (`for (let i = 0; i < pageNum - 1; i++)`,
scraper.js lines 467-479): starting from page `pos`'s content, repeat up to
`steps` times: extract the next form from the current page (break out when
absent), fetch it (on throw, the caller saves and aborts — reported as
`none`). Returns the page finally reached (`some p`) or `none` on a failed
step, together with the fetch events. -/
def ffGo (ch : Chain) : Nat → Nat → Option Nat × List Ev
  | 0, pos => (some pos, [])
  | steps + 1, pos =>
    if (ch.doc pos).hasNextForm then
      if ch.fetchOk (pos + 1) then
        let r := ffGo ch steps (pos + 1)
        (r.1, .fetched (pos + 1) :: r.2)
      else (none, [.fetched (pos + 1)])
    else (some pos, [])

/-- `scrapeAllPages` (scraper.js lines 449-512). Fresh run (`existingAds`
empty): the while loop from page 1 with an empty accumulator. Resume run:
`pageNum = Math.floor(existingAds.length / ADS_PER_PAGE) + 1`; fetch the
first page (on failure return the carried records without saving — `main`
still saves them); fast-forward `pageNum - 1` steps (on a failed step save
the carried records and return them); scrape the reached page, append, and
— only if a next form is present — continue the while loop with
`pageNum` incremented past the computed start. -/
def scrapeAllPages (ch : Chain) (maxPages : Nat) (existing : List Record) :
    List Record × List Ev :=
  if existing.isEmpty then crawlLoop ch maxPages 1 existing
  else
    let start := existing.length / ADS_PER_PAGE + 1
    if ch.fetchOk 1 then
      match ffGo ch (start - 1) 1 with
      | (none, tr) => (existing, .fetched 1 :: tr ++ [.saved existing])
      | (some p, tr) =>
        let ads := ch.scr p
        let acc := existing ++ ads
        if (ch.doc p).hasNextForm then
          let r := crawlLoop ch (maxPages - start) (p + 1) acc
          (r.1, .fetched 1 :: tr ++ .processed ads acc :: r.2)
        else (acc, .fetched 1 :: tr ++ [.processed ads acc])
    else (existing, [.fetched 1])

/-- Sheet data as `sheet_to_json` sees it: a row list, or a non-array
result (guarded by `Array.isArray`). -/
inductive SheetData (α : Type) where
  | rowsOf (rows : List α) : SheetData α
  | nonArray : SheetData α
deriving DecidableEq, Repr

/-- A workbook: `wb.Sheets[wb.SheetNames[0]]` may be missing. -/
structure Workbook (α : Type) where
  firstSheet : Option (SheetData α)
deriving DecidableEq, Repr

/-- The state of the Excel file at the output path: absent, or present with
`XLSX.readFile` either throwing (corrupt content) or yielding a workbook. -/
inductive FileState (α : Type) where
  | absent : FileState α
  | present (wb : Except String (Workbook α)) : FileState α

/-- `loadExistingAds` (scraper.js lines 523-534): `[]` when the file does
not exist; otherwise read it inside a try block — a throw yields `[]` —
take the first sheet (`[]` when missing), convert to rows, and return them
only if they form an array. -/
def loadExistingAds : FileState α → List α
  | .absent => []
  | .present (.error _) => []
  | .present (.ok wb) =>
    match wb.firstSheet with
    | none => []
    | some .nonArray => []
    | some (.rowsOf rows) => rows

/-- `main` (scraper.js lines 544-564): load the existing ads from the file,
run `scrapeAllPages` with them, and save the returned list to the file. -/
def mainRun (ch : Chain) (maxPages : Nat) (file : FileState Record) :
    List Record × List Ev :=
  let r := scrapeAllPages ch maxPages (loadExistingAds file)
  (r.1, r.2 ++ [.saved r.1])

/-- Contents of the persisted store after a trace of events, given its
contents `s0` before the run: each save replaces the whole file. -/
def storeAfter (s0 : List Record) : List Ev → List Record
  | [] => s0
  | .saved s :: tr => storeAfter s tr
  | .fetched _ :: tr => storeAfter s0 tr
  | .processed _ _ :: tr => storeAfter s0 tr

/-- The pages whose fetch was attempted, in order. -/
def fetchedPages (tr : List Ev) : List Nat :=
  tr.filterMap (fun e => match e with | .fetched p => some p | _ => none)

/-- A page with `n` markers (ids `tag1 ... tagn`, fields `tagk`), with or
without a next form; used for concrete instances. -/
def mkPage (tag : String) (n : Nat) (next : Bool) : PageDoc :=
  { markers := (List.range n).map
      (fun k => { id := some (tag ++ toString (k + 1)), fields := tag ++ toString (k + 1) }),
    hasNextForm := next }

/-- Chain used for the checkpointing counterexample: one page with one ad
and no next form; all fetches succeed; no email resolves. -/
def chC1 : Chain :=
  { doc := fun p => if p = 1 then mkPage "a" 1 false else mkPage "z" 0 false,
    fetchOk := fun _ => true,
    emailOf := fun _ => none }

/-- Chain used for the empty-resume-page counterexample: page 1 has five
ads and a next form, page 2 has zero ads but still a next form, page 3 has
one ad and no next form. -/
def chC3 : Chain :=
  { doc := fun p =>
      if p = 1 then mkPage "a" 5 true
      else if p = 2 then mkPage "b" 0 true
      else if p = 3 then mkPage "c" 1 false
      else mkPage "z" 0 false,
    fetchOk := fun _ => true,
    emailOf := fun _ => none }

/-- Whether an event is a store save. -/
def Ev.isSaved : Ev → Bool
  | .saved _ => true
  | _ => false

/-- The single record of `chC1`'s page 1. -/
def recC1 : Record := { fields := "a1", email := none }

/-- The single record of `chC3`'s page 3. -/
def recC3 : Record := { fields := "c1", email := none }

/-- File whose rows are exactly `chC3`'s page-1 records (five of them), so
a run on it resumes at page 2. -/
def fileC3 : FileState Record := .present (.ok ⟨some (.rowsOf (chC3.scr 1))⟩)

/-- Chain for the fetch-exhaustion scenario: page 1 has two ads and a next
form, but fetching page 2 fails after retries. -/
def chC4 : Chain :=
  { doc := fun p => if p = 1 then mkPage "a" 2 true else mkPage "z" 0 false,
    fetchOk := fun p => p == 1,
    emailOf := fun _ => none }

/-- Chain for the boundary-resume scenario: page 1 has five ads and a next
form, page 2 has two ads and no next form; all fetches succeed. -/
def chC6 : Chain :=
  { doc := fun p =>
      if p = 1 then mkPage "a" 5 true
      else if p = 2 then mkPage "b" 2 false
      else mkPage "z" 0 false,
    fetchOk := fun _ => true,
    emailOf := fun _ => none }

/-- Chain for the resume-failure scenario: page 1 has five ads and a next
form, but fetching page 2 fails after retries. -/
def chC7 : Chain :=
  { doc := fun p =>
      if p = 1 then mkPage "a" 5 true else mkPage "b" 1 true,
    fetchOk := fun p => p == 1,
    emailOf := fun _ => none }

/-- Six previously persisted records, putting the resume start at page 2. -/
def exC7 : List Record :=
  (List.range 6).map (fun k => { fields := "e" ++ toString k, email := none })

/-- File holding `exC7`. -/
def fileC7 : FileState Record := .present (.ok ⟨some (.rowsOf exC7)⟩)

/-- Chain for the duplicate-on-resume scenario: page 1 has five ads and a
next form, page 2 has three ads and no next form; all fetches succeed. -/
def chC10 : Chain :=
  { doc := fun p =>
      if p = 1 then mkPage "a" 5 true
      else if p = 2 then mkPage "b" 3 false
      else mkPage "z" 0 false,
    fetchOk := fun _ => true,
    emailOf := fun _ => none }

/-- Seven previously persisted records: all five of page 1 and the first
two of page 2 — a mid-page interruption point. -/
def exC10 : List Record := chC10.scr 1 ++ (chC10.scr 2).take 2

/-- Claim C1 as stated: at every point of every run, immediately after a
page's processing completes (its `processed` event), the persisted store
contains exactly the records accumulated so far. -/
def claimC1Statement : Prop :=
  ∀ (ch : Chain) (maxPages : Nat) (file : FileState Record)
    (t1 t2 : List Ev) (ads acc : List Record),
    (mainRun ch maxPages file).2 = t1 ++ Ev.processed ads acc :: t2 →
    storeAfter (loadExistingAds file) (t1 ++ [Ev.processed ads acc]) = acc

/-- Claim C2 as stated: a bare body of email shape is returned as is, and
every non-null revealed value is an email-shaped string (a structured
payload's named field is accepted only when it matches the shape; all other
content yields null). -/
def claimC2Statement : Prop :=
  (∀ (t : String) (p : Option Json), emailShape t = true →
    fetchEmail t p = some (.jstr t)) ∧
  (∀ (t : String) (p : Option Json) (v : Json), fetchEmail t p = some v →
    ∃ s, v = Json.jstr s ∧ emailShape s = true)

/-- Claim C3 as stated: a page with zero entry markers parses to an empty
record list regardless of token presence, and whenever a page's processing
reveals zero records — including the page reached by resume
fast-forwarding — the run terminates: no later fetch occurs and the final
(persisted) result is the accumulation at that point. -/
def claimC3Statement : Prop :=
  (∀ d : PageDoc, d.markers = [] → parsePage d = []) ∧
  (∀ (ch : Chain) (maxPages : Nat) (file : FileState Record)
     (t1 t2 : List Ev) (acc : List Record),
     (mainRun ch maxPages file).2 = t1 ++ Ev.processed [] acc :: t2 →
     fetchedPages t2 = [] ∧ (mainRun ch maxPages file).1 = acc)

/-- Concatenation of the records of `m` consecutive chain pages starting at
`pos`. -/
def pagesConcat (ch : Chain) : Nat → Nat → List Record
  | _, 0 => []
  | pos, m + 1 => ch.scr pos ++ pagesConcat ch (pos + 1) m

/-- The events emitted while the crawl loop processes `m` consecutive
nonempty pages starting at `pos` with accumulator `acc`. -/
def runEvs (ch : Chain) : Nat → Nat → List Record → List Ev
  | _, 0, _ => []
  | pos, m + 1, acc =>
    .fetched pos :: .processed (ch.scr pos) (acc ++ ch.scr pos) ::
      runEvs ch (pos + 1) m (acc ++ ch.scr pos)

theorem crawlLoop_acc (ch : Chain) :
    ∀ (fuel pos : Nat) (acc : List Record),
      (crawlLoop ch fuel pos acc).1 = acc ++ (crawlLoop ch fuel pos []).1 := by
  intro fuel
  induction fuel with
  | zero => intro pos acc; simp [crawlLoop]
  | succ fuel ih =>
    intro pos acc
    simp only [crawlLoop]
    by_cases hf : ch.fetchOk pos
    · simp only [hf, if_true]
      by_cases he : (ch.scr pos).isEmpty
      · simp [he]
      · simp only [he, if_false, Bool.false_eq_true]
        by_cases hn : (ch.doc pos).hasNextForm
        · simp only [hn, if_true]
          rw [ih (pos + 1) (acc ++ ch.scr pos), ih (pos + 1) ([] ++ ch.scr pos)]
          simp
        · simp [hn]
    · simp [hf]

theorem crawlLoop_unroll (ch : Chain) :
    ∀ (m fuel pos : Nat) (acc : List Record),
      (∀ i < m, ch.fetchOk (pos + i) = true ∧ ch.scr (pos + i) ≠ [] ∧
        (ch.doc (pos + i)).hasNextForm = true) →
      crawlLoop ch (m + fuel) pos acc =
        ((crawlLoop ch fuel (pos + m) (acc ++ pagesConcat ch pos m)).1,
         runEvs ch pos m acc ++
           (crawlLoop ch fuel (pos + m) (acc ++ pagesConcat ch pos m)).2) := by
  intro m
  induction m with
  | zero => intro fuel pos acc _; simp [pagesConcat, runEvs]
  | succ m ih =>
    intro fuel pos acc h
    have h0 := h 0 (Nat.succ_pos m)
    have hf : ch.fetchOk pos = true := by simpa using h0.1
    have hne : ch.scr pos ≠ [] := by simpa using h0.2.1
    have hn : (ch.doc pos).hasNextForm = true := by simpa using h0.2.2
    have hstep : m + 1 + fuel = (m + fuel) + 1 := by omega
    rw [hstep]
    simp only [crawlLoop, hf, if_true, hn]
    have hemp : (ch.scr pos).isEmpty = false := by
      simpa [List.isEmpty_iff] using hne
    simp only [hemp, Bool.false_eq_true, if_false, if_true]
    have ih2 := ih fuel (pos + 1) (acc ++ ch.scr pos)
      (by intro i hi; have := h (i + 1) (by omega)
          constructor
          · simpa [Nat.add_assoc, Nat.add_comm 1 i] using this.1
          constructor
          · simpa [Nat.add_assoc, Nat.add_comm 1 i] using this.2.1
          · simpa [Nat.add_assoc, Nat.add_comm 1 i] using this.2.2)
    rw [ih2]
    have hpos : pos + 1 + m = pos + (m + 1) := by omega
    have hconc : acc ++ ch.scr pos ++ pagesConcat ch (pos + 1) m =
        acc ++ pagesConcat ch pos (m + 1) := by
      simp [pagesConcat, List.append_assoc]
    rw [hpos, hconc]
    simp [runEvs]

theorem ffGo_reach (ch : Chain) :
    ∀ (steps pos : Nat),
      (∀ i < steps, (ch.doc (pos + i)).hasNextForm = true ∧
        ch.fetchOk (pos + i + 1) = true) →
      ffGo ch steps pos =
        (some (pos + steps), (List.range' (pos + 1) steps).map Ev.fetched) := by
  intro steps
  induction steps with
  | zero => intro pos _; simp [ffGo]
  | succ steps ih =>
    intro pos h
    have h0 := h 0 (Nat.succ_pos steps)
    have hn : (ch.doc pos).hasNextForm = true := by simpa using h0.1
    have hf : ch.fetchOk (pos + 1) = true := by simpa using h0.2
    simp only [ffGo, hn, if_true, hf]
    have ih2 := ih (pos + 1)
      (by intro i hi; have := h (i + 1) (by omega)
          constructor
          · simpa [Nat.add_assoc, Nat.add_comm 1 i] using this.1
          · have h2 := this.2
            have : pos + (i + 1) + 1 = pos + 1 + i + 1 := by omega
            rwa [this] at h2)
    rw [ih2]
    have : pos + 1 + steps = pos + (steps + 1) := by omega
    rw [this, List.range'_succ]
    simp

theorem ffGo_fail (ch : Chain) :
    ∀ (jj steps pos : Nat), jj < steps →
      (∀ i < jj, (ch.doc (pos + i)).hasNextForm = true ∧
        ch.fetchOk (pos + i + 1) = true) →
      (ch.doc (pos + jj)).hasNextForm = true →
      ch.fetchOk (pos + jj + 1) = false →
      ffGo ch steps pos =
        (none, (List.range' (pos + 1) jj).map Ev.fetched ++
          [Ev.fetched (pos + jj + 1)]) := by
  intro jj
  induction jj with
  | zero =>
    intro steps pos hlt _ hn hf
    obtain ⟨s, rfl⟩ : ∃ s, steps = s + 1 := ⟨steps - 1, by omega⟩
    have hn0 : (ch.doc pos).hasNextForm = true := by simpa using hn
    have hf0 : ch.fetchOk (pos + 1) = false := by simpa using hf
    simp [ffGo, hn0, hf0]
  | succ jj ih =>
    intro steps pos hlt h hn hf
    obtain ⟨s, rfl⟩ : ∃ s, steps = s + 1 := ⟨steps - 1, by omega⟩
    have h0 := h 0 (Nat.succ_pos jj)
    have hn0 : (ch.doc pos).hasNextForm = true := by simpa using h0.1
    have hf0 : ch.fetchOk (pos + 1) = true := by simpa using h0.2
    simp only [ffGo, hn0, if_true, hf0]
    have ih2 := ih s (pos + 1) (by omega)
      (by intro i hi; have := h (i + 1) (by omega)
          constructor
          · simpa [Nat.add_assoc, Nat.add_comm 1 i] using this.1
          · have h2 := this.2
            have heq : pos + (i + 1) + 1 = pos + 1 + i + 1 := by omega
            rwa [heq] at h2)
      (by have heq : pos + (jj + 1) = pos + 1 + jj := by omega
          rwa [heq] at hn)
      (by have heq : pos + (jj + 1) + 1 = pos + 1 + jj + 1 := by omega
          rwa [heq] at hf)
    rw [ih2, List.range'_succ]
    have : pos + 1 + jj + 1 = pos + (jj + 1) + 1 := by omega
    simp [this]

theorem pagesConcat_length (ch : Chain) :
    ∀ (m pos : Nat), (∀ i < m, (ch.scr (pos + i)).length = ADS_PER_PAGE) →
      (pagesConcat ch pos m).length = ADS_PER_PAGE * m := by
  intro m
  induction m with
  | zero => intro pos _; simp [pagesConcat]
  | succ m ih =>
    intro pos h
    have h0 : (ch.scr pos).length = ADS_PER_PAGE := by simpa using h 0 (Nat.succ_pos m)
    have ih2 := ih (pos + 1)
      (by intro i hi; have := h (i + 1) (by omega)
          simpa [Nat.add_assoc, Nat.add_comm 1 i] using this)
    simp [pagesConcat, h0, ih2, Nat.mul_succ, Nat.mul_add]
    omega

theorem fetchedPages_append (t1 t2 : List Ev) :
    fetchedPages (t1 ++ t2) = fetchedPages t1 ++ fetchedPages t2 := by
  simp [fetchedPages]

theorem fetchedPages_runEvs (ch : Chain) :
    ∀ (m pos : Nat) (acc : List Record),
      fetchedPages (runEvs ch pos m acc) = List.range' pos m := by
  intro m
  induction m with
  | zero => intro pos acc; simp [runEvs, fetchedPages]
  | succ m ih =>
    intro pos acc
    simp [runEvs, fetchedPages, List.range'_succ] at *
    exact ih (pos + 1) (acc ++ ch.scr pos)

theorem fetchedPages_map_fetched (l : List Nat) :
    fetchedPages (l.map Ev.fetched) = l := by
  induction l with
  | nil => simp [fetchedPages]
  | cons x xs ih => simp [fetchedPages] at *; exact ih

theorem fetchedPages_nil : fetchedPages [] = [] := rfl

theorem fetchedPages_cons_fetched (p : Nat) (tr : List Ev) :
    fetchedPages (Ev.fetched p :: tr) = p :: fetchedPages tr := by
  simp [fetchedPages]

theorem fetchedPages_cons_processed (ads acc : List Record) (tr : List Ev) :
    fetchedPages (Ev.processed ads acc :: tr) = fetchedPages tr := by
  simp [fetchedPages]

theorem fetchedPages_cons_saved (s : List Record) (tr : List Ev) :
    fetchedPages (Ev.saved s :: tr) = fetchedPages tr := by
  simp [fetchedPages]

theorem storeAfter_append_saved (s0 x : List Record) (tr : List Ev) :
    storeAfter s0 (tr ++ [Ev.saved x]) = x := by
  induction tr generalizing s0 with
  | nil => simp [storeAfter]
  | cons e tr ih => cases e <;> simp [storeAfter, ih]

theorem retryDelaysGo_head (base : Nat) (ok : Nat → Bool) :
    ∀ (fuel a x : Nat) (l : List Nat),
      retryDelaysGo base ok a fuel = x :: l → x = base * 2 ^ (a - 1) := by
  intro fuel a x l h
  cases fuel with
  | zero => simp [retryDelaysGo] at h
  | succ fuel =>
    simp only [retryDelaysGo] at h
    by_cases hok : ok a
    · simp [hok] at h
    · simp only [hok, Bool.false_eq_true, if_false] at h
      by_cases hz : fuel = 0
      · simp [hz] at h
      · simp only [hz, if_false, List.cons.injEq] at h
        exact h.1.symm

theorem retryDelaysGo_chain (base : Nat) (ok : Nat → Bool) (hb : 0 < base) :
    ∀ (fuel a : Nat), 1 ≤ a →
      List.Chain' (fun x y => y = 2 * x ∧ x < y) (retryDelaysGo base ok a fuel) := by
  intro fuel
  induction fuel with
  | zero => intro a _; simp [retryDelaysGo]
  | succ fuel ih =>
    intro a ha
    simp only [retryDelaysGo]
    by_cases hok : ok a
    · simp [hok]
    · simp only [hok, Bool.false_eq_true, if_false]
      by_cases hz : fuel = 0
      · simp [hz]
      · simp only [hz, if_false]
        rw [List.chain'_cons']
        refine ⟨?_, ih (a + 1) (by omega)⟩
        intro y hy
        cases hrest : retryDelaysGo base ok (a + 1) fuel with
        | nil => rw [hrest] at hy; simp at hy
        | cons z zs =>
          rw [hrest] at hy
          simp only [List.head?_cons, Option.mem_def, Option.some.injEq] at hy
          subst hy
          have hz2 := retryDelaysGo_head base ok fuel (a + 1) z zs hrest
          have hdouble : z = 2 * (base * 2 ^ (a - 1)) := by
            rw [hz2]
            have h2 : 2 ^ (a + 1 - 1) = 2 ^ (a - 1) * 2 := by
              rw [← pow_succ]
              congr 1
              omega
            rw [h2]
            ring
          have hpos : 0 < base * 2 ^ (a - 1) :=
            Nat.mul_pos hb (Nat.pos_pow_of_pos _ (by norm_num))
          exact ⟨hdouble, by omega⟩

theorem resume_unfold (ch : Chain) (maxPages s : Nat) (existing : List Record)
    (hne : existing ≠ [])
    (hs : existing.length / ADS_PER_PAGE = s)
    (h1 : ch.fetchOk 1 = true)
    (hstep : ∀ i < s, (ch.doc (1 + i)).hasNextForm = true ∧
      ch.fetchOk (1 + i + 1) = true) :
    scrapeAllPages ch maxPages existing =
      if (ch.doc (1 + s)).hasNextForm then
        ((crawlLoop ch (maxPages - (s + 1)) (1 + s + 1) (existing ++ ch.scr (1 + s))).1,
         Ev.fetched 1 :: (List.range' 2 s).map Ev.fetched ++
           Ev.processed (ch.scr (1 + s)) (existing ++ ch.scr (1 + s)) ::
             (crawlLoop ch (maxPages - (s + 1)) (1 + s + 1) (existing ++ ch.scr (1 + s))).2)
      else
        (existing ++ ch.scr (1 + s),
         Ev.fetched 1 :: (List.range' 2 s).map Ev.fetched ++
           [Ev.processed (ch.scr (1 + s)) (existing ++ ch.scr (1 + s))]) := by
  have hemp : existing.isEmpty = false := by
    simpa [List.isEmpty_iff] using hne
  have hff := ffGo_reach ch s 1 hstep
  have hs1 : existing.length / ADS_PER_PAGE + 1 - 1 = s := by omega
  simp only [scrapeAllPages, hemp, Bool.false_eq_true, if_false, h1, if_true, hs1, hff]
  by_cases hn : (ch.doc (1 + s)).hasNextForm
  · simp [hn, hs]
  · simp [hn, hs]

theorem range_shift (k : Nat) :
    (1 : Nat) :: List.range' 2 k = List.range' 1 k ++ [1 + k] := by
  have h1 : (1 : Nat) :: List.range' 2 k = List.range' 1 (k + 1) :=
    (List.range'_succ 1 k 1).symm
  rw [h1, List.range'_1_concat]

theorem range_shift_append (k : Nat) (X : List Nat) :
    (1 : Nat) :: (List.range' 2 k ++ X) = (List.range' 1 k ++ [1 + k]) ++ X := by
  rw [← range_shift]
  simp

/-- C1 (counterexample): the checkpoint-per-page claim is false — in the
run of `chC1` (one page, one ad, fresh start from an absent file) the store
is still empty right after the page's processing completes; the only save
happens at the end of the run. -/
theorem checkpoint_per_page_false : ¬ claimC1Statement := by
  intro h
  have h2 := h chC1 5 .absent [Ev.fetched 1] [Ev.saved [recC1]] [recC1] [recC1]
    (by decide)
  exact absurd h2 (by decide)

/-- C1 (amended): the orchestrator persists the full accumulated result set
once, when the run ends (`main` saves what `scrapeAllPages` returned); the
page loop itself never saves, so after any page's processing the store
still holds its pre-run contents — an interruption loses every page fetched
during the current run, not just the in-flight page. -/
theorem persist_at_run_end :
    (∀ (ch : Chain) (maxPages : Nat) (file : FileState Record),
      storeAfter (loadExistingAds file) (mainRun ch maxPages file).2 =
        (mainRun ch maxPages file).1) ∧
    (∀ (ch : Chain) (fuel pos : Nat) (acc : List Record),
      ((crawlLoop ch fuel pos acc).2.all (fun e => !e.isSaved)) = true) := by
  constructor
  · intro ch maxPages file
    simp only [mainRun]
    exact storeAfter_append_saved _ _ _
  · intro ch fuel
    induction fuel with
    | zero => intro pos acc; simp [crawlLoop]
    | succ fuel ih =>
      intro pos acc
      simp only [crawlLoop]
      by_cases hf : ch.fetchOk pos
      · by_cases he : (ch.scr pos).isEmpty
        · simp [hf, he, Ev.isSaved]
        · by_cases hn : (ch.doc pos).hasNextForm
          · simp only [hf, if_true, he, Bool.false_eq_true, if_false, hn,
              List.all_cons, Ev.isSaved, Bool.not_false, Bool.true_and]
            exact ih (pos + 1) (acc ++ ch.scr pos)
          · simp [hf, he, hn, Ev.isSaved]
      · simp [hf, Ev.isSaved]

/-- C2 (counterexample): the reveal-parsing claim is false — for the
structured payload `{"email":"x"}` the code returns the field value `"x"`
even though it does not match the email-address shape. -/
theorem reveal_parse_claim_false : ¬ claimC2Statement := by
  intro h
  obtain ⟨s, hs, hshape⟩ :=
    h.2 "\x7b\"email\":\"x\"\x7d" (some (.jobj [("email", .jstr "x")])) (.jstr "x") rfl
  injection hs with hs'
  rw [← hs'] at hshape
  exact absurd hshape (by decide)

/-- C2 (amended): a bare body of email shape yields that string; a
structured payload's `email` field is returned whenever present and truthy,
with no shape validation; a JSON-encoded bare string is accepted only when
email-shaped; all other content yields null — and the handler is a total
function, so no response content raises an error. -/
theorem fetchEmail_eq_spec : ∀ (t : String) (p : Option Json),
    fetchEmail t p = fetchEmailSpec t p := by
  intro t p
  by_cases ht : emailShape t
  · simp [fetchEmail, fetchEmailSpec, ht]
  · cases p with
    | none => simp [fetchEmail, fetchEmailSpec, ht]
    | some j =>
      cases j with
      | jobj fields =>
        simp only [fetchEmail, fetchEmailSpec, ht, Bool.false_eq_true, if_false,
          jsPropEmail]
        cases hf : fields.find? (fun kv => kv.1 == "email") with
        | none => simp [jsonStrCase]
        | some kv => simp [jsonStrCase]
      | jstr s => simp [fetchEmail, fetchEmailSpec, ht, jsPropEmail, jsonStrCase]
      | jnull => simp [fetchEmail, fetchEmailSpec, ht, jsPropEmail, jsonStrCase]
      | jbool b => simp [fetchEmail, fetchEmailSpec, ht, jsPropEmail, jsonStrCase]
      | jnum n => simp [fetchEmail, fetchEmailSpec, ht, jsPropEmail, jsonStrCase]
      | jarr es => simp [fetchEmail, fetchEmailSpec, ht, jsPropEmail, jsonStrCase]

/-- C3 (counterexample): the claim is false for the page reached by resume
fast-forwarding — in the run of `chC3` resumed from page 1's five records,
page 2 reveals zero records yet the run goes on to fetch page 3 and appends
its record. -/
theorem empty_resume_page_claim_false : ¬ claimC3Statement := by
  intro h
  have h2 := (h.2 chC3 10 fileC3
    [Ev.fetched 1, Ev.fetched 2]
    [Ev.fetched 3, Ev.processed [recC3] (chC3.scr 1 ++ [recC3]),
      Ev.saved (chC3.scr 1 ++ [recC3])]
    (chC3.scr 1) (by decide)).1
  exact absurd h2 (by decide)

/-- C3 (amended): a page with zero entry markers parses to an empty record
list regardless of token presence, and in the main crawl loop a page that
reveals zero records stops the loop immediately (nothing else is fetched);
however, when the zero-record page is the page reached by resume
fast-forwarding and a continuation token is present, the run does not stop
there but proceeds to the next page. -/
theorem empty_page_stops_loop :
    (∀ d : PageDoc, d.markers = [] → parsePage d = []) ∧
    (∀ (ch : Chain) (fuel pos : Nat) (acc : List Record),
      ch.fetchOk pos = true → ch.scr pos = [] →
      crawlLoop ch (fuel + 1) pos acc = (acc, [Ev.fetched pos, Ev.processed [] acc])) := by
  constructor
  · intro d hd
    simp [parsePage, hd]
  · intro ch fuel pos acc hf hscr
    simp [crawlLoop, hf, hscr]

/-- Witness for the amended C3 theorem at a concrete empty page: page 2 of
`chC3` has no markers, and the crawl loop stops there at once. -/
theorem empty_page_stops_loop_witness :
    parsePage { markers := [], hasNextForm := true } = [] ∧
    crawlLoop chC3 1 2 [] = ([], [Ev.fetched 2, Ev.processed [] []]) :=
  ⟨empty_page_stops_loop.1 { markers := [], hasNextForm := true } rfl,
   empty_page_stops_loop.2 chC3 0 2 [] (by decide) (by decide)⟩

/-- C8: for both the page-fetch path (ceiling 4 attempts, base delay
2000 ms) and the reveal path (ceiling 4 attempts, base delay 1000 ms), every
two consecutive delays of any retry run satisfy "the next is exactly double,
hence strictly greater", and the full failure schedules are
[2000, 4000, 8000] and [1000, 2000, 4000]. -/
theorem backoff_doubling :
    (∀ ok : Nat → Bool,
      List.Chain' (fun x y => y = 2 * x ∧ x < y) (fetchPageDelays ok)) ∧
    (∀ ok : Nat → Bool,
      List.Chain' (fun x y => y = 2 * x ∧ x < y) (fetchEmailDelays ok)) ∧
    fetchPageDelays (fun _ => false) = [2000, 4000, 8000] ∧
    fetchEmailDelays (fun _ => false) = [1000, 2000, 4000] ∧
    FETCH_PAGE_RETRIES = 4 ∧ FETCH_EMAIL_RETRIES = 4 :=
  ⟨fun ok => retryDelaysGo_chain 2000 ok (by norm_num) FETCH_PAGE_RETRIES 1 le_rfl,
   fun ok => retryDelaysGo_chain 1000 ok (by norm_num) FETCH_EMAIL_RETRIES 1 le_rfl,
   by decide, by decide, rfl, rfl⟩

/-- C9: loading the persisted result set yields the empty sequence when the
file is absent, when reading it throws (corrupt content), when the workbook
has no first sheet, and when the sheet rows are not an array; in every case
the loader returns a plain list (it is a total function — no error reaches
the caller), and any non-empty result is exactly the first sheet's row
list. -/
theorem loadExistingAds_total :
    loadExistingAds (FileState.absent (α := Record)) = [] ∧
    (∀ e : String, loadExistingAds (FileState.present (α := Record) (.error e)) = []) ∧
    loadExistingAds (FileState.present (α := Record) (.ok ⟨none⟩)) = [] ∧
    loadExistingAds (FileState.present (α := Record) (.ok ⟨some .nonArray⟩)) = [] ∧
    (∀ f : FileState Record, loadExistingAds f = [] ∨
      ∃ rows, f = .present (.ok ⟨some (.rowsOf rows)⟩) ∧ loadExistingAds f = rows) := by
  refine ⟨rfl, fun e => rfl, rfl, rfl, ?_⟩
  intro f
  match f with
  | .absent => exact Or.inl rfl
  | .present (.error e) => exact Or.inl rfl
  | .present (.ok ⟨none⟩) => exact Or.inl rfl
  | .present (.ok ⟨some .nonArray⟩) => exact Or.inl rfl
  | .present (.ok ⟨some (.rowsOf rows)⟩) => exact Or.inr ⟨rows, rfl, rfl⟩

/-- C4: in a fresh run, when fetching page `m + 1` fails after exhausting
retries while pages `1 .. m` succeeded with nonempty record lists and next
forms, the orchestrator stops paginating (no page beyond `m + 1` is ever
fetched), the run ends normally, and the persisted store holds exactly the
records of the `m` prior successful pages — empty when the first page
failed (`m = 0`). -/
theorem fetch_exhaustion_preserves (ch : Chain) (maxPages m : Nat)
    (file : FileState Record)
    (hload : loadExistingAds file = [])
    (hok : ∀ i < m, ch.fetchOk (1 + i) = true ∧ ch.scr (1 + i) ≠ [] ∧
      (ch.doc (1 + i)).hasNextForm = true)
    (hfail : ch.fetchOk (1 + m) = false)
    (hmax : m + 1 ≤ maxPages) :
    (mainRun ch maxPages file).1 = pagesConcat ch 1 m ∧
    storeAfter (loadExistingAds file) (mainRun ch maxPages file).2 =
      pagesConcat ch 1 m ∧
    fetchedPages (mainRun ch maxPages file).2 = List.range' 1 (m + 1) := by
  have hsplit : maxPages = m + (maxPages - m) := by omega
  have hsc : scrapeAllPages ch maxPages (loadExistingAds file) =
      (pagesConcat ch 1 m, runEvs ch 1 m [] ++ [Ev.fetched (1 + m)]) := by
    rw [hload]
    simp only [scrapeAllPages, List.isEmpty_nil, if_true]
    rw [hsplit, crawlLoop_unroll ch m (maxPages - m) 1 [] hok]
    obtain ⟨f, hf⟩ : ∃ f, maxPages - m = f + 1 := ⟨maxPages - m - 1, by omega⟩
    rw [hf]
    simp [crawlLoop, hfail]
  have hm1 : (mainRun ch maxPages file).1 = pagesConcat ch 1 m := by
    simp [mainRun, hsc]
  have hm2 : (mainRun ch maxPages file).2 =
      (runEvs ch 1 m [] ++ [Ev.fetched (1 + m)]) ++
        [Ev.saved (pagesConcat ch 1 m)] := by
    simp [mainRun, hsc]
  refine ⟨hm1, ?_, ?_⟩
  · rw [hm2]
    exact storeAfter_append_saved _ _ _
  · rw [hm2, fetchedPages_append, fetchedPages_append, fetchedPages_runEvs]
    simp [fetchedPages, List.range'_1_concat]

/-- Witness for C4 on `chC4`: page 1 succeeds with two ads, page 2's fetch
fails after retries; the run returns page 1's records, persists exactly
them, and only pages 1 and 2 were ever fetched. -/
theorem fetch_exhaustion_witness :
    (mainRun chC4 10 .absent).1 = pagesConcat chC4 1 1 ∧
    storeAfter (loadExistingAds (FileState.absent (α := Record)))
      (mainRun chC4 10 .absent).2 = pagesConcat chC4 1 1 ∧
    fetchedPages (mainRun chC4 10 .absent).2 = List.range' 1 2 :=
  fetch_exhaustion_preserves chC4 10 1 .absent rfl (by decide) (by decide)
    (by decide)

/-- C5: for a resume over `N` persisted records with `s = N / 5` (so the
computed start page is `floor(N / 5) + 1 = s + 1`), when the first-page
fetch and the `s` fast-forward steps succeed, the fast-forward re-fetches
the listing's first page and then repeats the "next" extraction exactly
`s` times in sequence, reaching page `s + 1` (fetching pages `2 .. s + 1`
on the way); the intermediate pages' records are discarded — the final
result is the carried records, then the reached page's records, then
whatever live crawling from page `s + 2` adds. -/
theorem resume_fast_forward (ch : Chain) (maxPages s : Nat)
    (existing : List Record)
    (hne : existing ≠ [])
    (hs : existing.length / ADS_PER_PAGE = s)
    (h1 : ch.fetchOk 1 = true)
    (hstep : ∀ i < s, (ch.doc (1 + i)).hasNextForm = true ∧
      ch.fetchOk (1 + i + 1) = true) :
    ffGo ch s 1 = (some (1 + s), (List.range' 2 s).map Ev.fetched) ∧
    (scrapeAllPages ch maxPages existing).1 =
      existing ++ ch.scr (1 + s) ++
        (if (ch.doc (1 + s)).hasNextForm then
          (crawlLoop ch (maxPages - (s + 1)) (1 + s + 1) []).1
         else []) := by
  constructor
  · exact ffGo_reach ch s 1 hstep
  · rw [resume_unfold ch maxPages s existing hne hs h1 hstep]
    by_cases hn : (ch.doc (1 + s)).hasNextForm
    · simp only [hn, if_true]
      rw [crawlLoop_acc]
    · simp [hn]

/-- Witness for C5 on `chC3` resumed from page 1's five records: the
fast-forward performs exactly one "next" step (fetching page 2) and the
result is the carried records plus page 2's (empty) records plus the live
crawl from page 3. -/
theorem resume_fast_forward_witness :
    ffGo chC3 1 1 = (some 2, [Ev.fetched 2]) ∧
    (scrapeAllPages chC3 10 (chC3.scr 1)).1 =
      chC3.scr 1 ++ chC3.scr 2 ++ (crawlLoop chC3 8 3 []).1 := by
  have h := resume_fast_forward chC3 10 1 (chC3.scr 1) (by decide) (by decide)
    (by decide) (by decide)
  exact ⟨h.1, h.2.trans (by decide)⟩

/-- C6: resume is idempotent on the page boundary — when the persisted
records are exactly the records of the first `k` pages (each contributing
the full page size of 5), the chain's first `k` pages have next forms, all
fetches up to page `k + 1` succeed, page `k + 1` is well formed (an empty
page has no next form), and the page ceiling allows page `k + 1`, then the
resumed run returns the same final result set as an uninterrupted fresh
run, and the two runs attempt exactly the same sequence of page fetches. -/
theorem resume_idempotent_boundary (ch : Chain) (maxPages k : Nat)
    (h5 : ∀ i < k, (ch.scr (1 + i)).length = ADS_PER_PAGE)
    (hok : ∀ i < k, ch.fetchOk (1 + i) = true)
    (hnx : ∀ i < k, (ch.doc (1 + i)).hasNextForm = true)
    (hok1 : ch.fetchOk (1 + k) = true)
    (hvalid : ch.scr (1 + k) = [] → (ch.doc (1 + k)).hasNextForm = false)
    (hmax : k + 1 ≤ maxPages) :
    (scrapeAllPages ch maxPages (pagesConcat ch 1 k)).1 =
      (scrapeAllPages ch maxPages []).1 ∧
    fetchedPages (scrapeAllPages ch maxPages (pagesConcat ch 1 k)).2 =
      fetchedPages (scrapeAllPages ch maxPages []).2 := by
  rcases Nat.eq_zero_or_pos k with hk0 | hkpos
  · subst hk0
    exact ⟨rfl, rfl⟩
  have hlen : (pagesConcat ch 1 k).length = ADS_PER_PAGE * k :=
    pagesConcat_length ch k 1 h5
  have hne : pagesConcat ch 1 k ≠ [] := by
    intro h
    rw [h] at hlen
    simp only [List.length_nil, ADS_PER_PAGE] at hlen
    omega
  have hs : (pagesConcat ch 1 k).length / ADS_PER_PAGE = k := by
    rw [hlen]
    exact Nat.mul_div_cancel_left k (by norm_num [ADS_PER_PAGE])
  have h1 : ch.fetchOk 1 = true := by simpa using hok 0 hkpos
  have hstep : ∀ i < k, (ch.doc (1 + i)).hasNextForm = true ∧
      ch.fetchOk (1 + i + 1) = true := by
    intro i hi
    refine ⟨hnx i hi, ?_⟩
    by_cases hik : i + 1 < k
    · have h2 := hok (i + 1) hik
      have heq : 1 + (i + 1) = 1 + i + 1 := by omega
      rwa [heq] at h2
    · have heq : 1 + i + 1 = 1 + k := by omega
      rw [heq]
      exact hok1
  have hloop : ∀ i < k, ch.fetchOk (1 + i) = true ∧ ch.scr (1 + i) ≠ [] ∧
      (ch.doc (1 + i)).hasNextForm = true := by
    intro i hi
    refine ⟨hok i hi, ?_, hnx i hi⟩
    have h5i := h5 i hi
    intro hc
    rw [hc] at h5i
    simp [ADS_PER_PAGE] at h5i
  have hfresh : scrapeAllPages ch maxPages [] =
      ((crawlLoop ch (maxPages - k) (1 + k) (pagesConcat ch 1 k)).1,
       runEvs ch 1 k [] ++
         (crawlLoop ch (maxPages - k) (1 + k) (pagesConcat ch 1 k)).2) := by
    simp only [scrapeAllPages, List.isEmpty_nil, if_true]
    have hsplit : maxPages = k + (maxPages - k) := by omega
    conv_lhs => rw [hsplit]
    rw [crawlLoop_unroll ch k (maxPages - k) 1 [] hloop]
    simp
  rw [resume_unfold ch maxPages k (pagesConcat ch 1 k) hne hs h1 hstep, hfresh]
  obtain ⟨f, hf⟩ : ∃ f, maxPages - k = f + 1 := ⟨maxPages - k - 1, by omega⟩
  have hfk : maxPages - (k + 1) = f := by omega
  rw [hf, hfk]
  simp only [crawlLoop, hok1, if_true]
  by_cases hempty : (ch.scr (1 + k)).isEmpty
  · have hnF : (ch.doc (1 + k)).hasNextForm = false :=
      hvalid (by simpa [List.isEmpty_iff] using hempty)
    simp only [hempty, if_true, hnF, Bool.false_eq_true, if_false]
    refine ⟨by trivial, ?_⟩
    simp only [fetchedPages_cons_fetched, fetchedPages_cons_processed,
      fetchedPages_append, fetchedPages_runEvs, fetchedPages_map_fetched,
      fetchedPages_nil, List.append_nil]
    exact range_shift k
  · simp only [hempty, Bool.false_eq_true, if_false]
    by_cases hn : (ch.doc (1 + k)).hasNextForm
    · simp only [hn, if_true]
      refine ⟨by trivial, ?_⟩
      simp only [fetchedPages_cons_fetched, fetchedPages_cons_processed,
        fetchedPages_append, fetchedPages_runEvs, fetchedPages_map_fetched]
      rw [range_shift]
      simp
    · simp only [hn, Bool.false_eq_true, if_false]
      refine ⟨by trivial, ?_⟩
      simp only [fetchedPages_cons_fetched, fetchedPages_cons_processed,
        fetchedPages_append, fetchedPages_runEvs, fetchedPages_map_fetched,
        fetchedPages_nil, List.append_nil]
      exact range_shift k

/-- Witness for C6 on `chC6` with `k = 1`: resuming from page 1's five
records yields the same result set and the same fetched pages as a fresh
run. -/
theorem resume_idempotent_witness :
    (scrapeAllPages chC6 10 (pagesConcat chC6 1 1)).1 =
      (scrapeAllPages chC6 10 []).1 ∧
    fetchedPages (scrapeAllPages chC6 10 (pagesConcat chC6 1 1)).2 =
      fetchedPages (scrapeAllPages chC6 10 []).2 :=
  resume_idempotent_boundary chC6 10 1 (by decide) (by decide) (by decide)
    (by decide) (by decide) (by decide)

/-- C7: when a resume fast-forward step fails after exhausting retries —
the initial first-page fetch (`j = 0`) or the fetch of page `j + 1` during
the fast-forward loop (`j ≥ 1`, with pages `1 .. j` fetched fine and
showing next forms) — resumption aborts: no page beyond `j + 1` is ever
fetched, the run returns exactly the carried-forward prior records, and the
store ends up persisted with exactly those records, never fewer. -/
theorem resume_failure_preserves (ch : Chain) (maxPages j : Nat)
    (file : FileState Record)
    (hne : loadExistingAds file ≠ [])
    (hj : j < (loadExistingAds file).length / ADS_PER_PAGE + 1)
    (hok : ∀ i < j, ch.fetchOk (1 + i) = true)
    (hnx : ∀ i < j, (ch.doc (1 + i)).hasNextForm = true)
    (hfail : ch.fetchOk (j + 1) = false) :
    (mainRun ch maxPages file).1 = loadExistingAds file ∧
    storeAfter (loadExistingAds file) (mainRun ch maxPages file).2 =
      loadExistingAds file ∧
    fetchedPages (mainRun ch maxPages file).2 = List.range' 1 (j + 1) := by
  have hemp : (loadExistingAds file).isEmpty = false := by
    simpa [List.isEmpty_iff] using hne
  cases j with
  | zero =>
    have hf1 : ch.fetchOk 1 = false := by simpa using hfail
    have hsc : scrapeAllPages ch maxPages (loadExistingAds file) =
        (loadExistingAds file, [Ev.fetched 1]) := by
      simp [scrapeAllPages, hemp, hf1]
    refine ⟨by simp [mainRun, hsc], ?_, ?_⟩
    · simp [mainRun, hsc, storeAfter]
    · simp only [mainRun, hsc]
      simp only [fetchedPages_append, fetchedPages_cons_fetched,
        fetchedPages_cons_saved, fetchedPages_nil, List.append_nil]
      rfl
  | succ jj =>
    have hf1 : ch.fetchOk 1 = true := by simpa using hok 0 (Nat.succ_pos jj)
    have hff := ffGo_fail ch jj ((loadExistingAds file).length / ADS_PER_PAGE) 1
      (by omega)
      (by intro i hi
          refine ⟨hnx i (by omega), ?_⟩
          have h2 := hok (i + 1) (by omega)
          have heq : 1 + (i + 1) = 1 + i + 1 := by omega
          rwa [heq] at h2)
      (hnx jj (by omega))
      (by have heq : 1 + jj + 1 = jj + 1 + 1 := by omega
          rw [heq]
          exact hfail)
    have hsc : scrapeAllPages ch maxPages (loadExistingAds file) =
        (loadExistingAds file,
         Ev.fetched 1 :: ((List.range' 2 jj).map Ev.fetched ++
             [Ev.fetched (1 + jj + 1)]) ++
           [Ev.saved (loadExistingAds file)]) := by
      simp only [scrapeAllPages, hemp, Bool.false_eq_true, if_false, hf1, if_true]
      have hs1 : (loadExistingAds file).length / ADS_PER_PAGE + 1 - 1 =
          (loadExistingAds file).length / ADS_PER_PAGE := by omega
      rw [hs1, hff]
    refine ⟨by simp [mainRun, hsc], ?_, ?_⟩
    · have hm2 : (mainRun ch maxPages file).2 =
          ((Ev.fetched 1 :: ((List.range' 2 jj).map Ev.fetched ++
              [Ev.fetched (1 + jj + 1)]) ++
            [Ev.saved (loadExistingAds file)]) ++
           [Ev.saved (loadExistingAds file)]) := by
        simp [mainRun, hsc]
      rw [hm2]
      exact storeAfter_append_saved _ _ _
    · simp only [mainRun, hsc]
      simp only [fetchedPages_append, fetchedPages_cons_fetched,
        fetchedPages_cons_saved, fetchedPages_map_fetched, fetchedPages_nil,
        List.append_nil]
      rw [List.range'_1_concat, List.range'_succ]
      simp
      omega

/-- Witness for C7 on `chC7`: six carried records put the start at page 2;
the single fast-forward step fails fetching page 2, and the run persists
exactly the six carried records having fetched only pages 1 and 2. -/
theorem resume_failure_witness :
    (mainRun chC7 10 fileC7).1 = loadExistingAds fileC7 ∧
    storeAfter (loadExistingAds fileC7) (mainRun chC7 10 fileC7).2 =
      loadExistingAds fileC7 ∧
    fetchedPages (mainRun chC7 10 fileC7).2 = List.range' 1 2 :=
  resume_failure_preserves chC7 10 1 fileC7 (by decide) (by decide) (by decide)
    (by decide) (by decide)

/-- C10: when the persisted count `N` is not a multiple of the page size
(`N % 5 = r ≠ 0`, `N / 5 = s`) and the persisted records end with the first
`r` records of page `s + 1` (the resume start page), the resumed run
re-scrapes that whole page, so each of those `r` records occurs at least
twice in the final result set. -/
theorem resume_mid_page_duplicates (ch : Chain) (maxPages s r : Nat)
    (existing B : List Record)
    (hne : existing ≠ [])
    (hs : existing.length / ADS_PER_PAGE = s)
    (_hr : existing.length % ADS_PER_PAGE = r)
    (_hr0 : r ≠ 0)
    (hex : existing = B ++ (ch.scr (1 + s)).take r)
    (h1 : ch.fetchOk 1 = true)
    (hstep : ∀ i < s, (ch.doc (1 + i)).hasNextForm = true ∧
      ch.fetchOk (1 + i + 1) = true) :
    ∀ x ∈ (ch.scr (1 + s)).take r,
      2 ≤ ((scrapeAllPages ch maxPages existing).1).count x := by
  intro x hx
  have hxA : x ∈ ch.scr (1 + s) := List.mem_of_mem_take hx
  have hxE : x ∈ existing := by
    rw [hex]
    exact List.mem_append_right _ hx
  have hcE : 0 < existing.count x := List.count_pos_iff.mpr hxE
  have hcA : 0 < (ch.scr (1 + s)).count x := List.count_pos_iff.mpr hxA
  rw [resume_unfold ch maxPages s existing hne hs h1 hstep]
  by_cases hn : (ch.doc (1 + s)).hasNextForm
  · simp only [hn, if_true]
    rw [crawlLoop_acc]
    simp only [List.count_append]
    omega
  · simp only [hn, Bool.false_eq_true, if_false]
    simp only [List.count_append]
    omega

/-- Witness for C10 on `chC10`: seven persisted records (page 1's five and
the first two of page 2) make the run re-scrape page 2, so page 2's first
record occurs at least twice in the final result. -/
theorem resume_mid_page_duplicates_witness :
    2 ≤ ((scrapeAllPages chC10 10 exC10).1).count
      { fields := "b1", email := none } :=
  resume_mid_page_duplicates chC10 10 1 2 exC10 (chC10.scr 1) (by decide)
    (by decide) (by decide) (by decide) (by decide) (by decide) (by decide)
    { fields := "b1", email := none } (by decide)

example : fetchPageDelays (fun _ => false) = [2000, 4000, 8000] := by decide
example : fetchEmailDelays (fun _ => false) = [1000, 2000, 4000] := by decide
example : emailShape "a@b.c" = true := by decide
example : emailShape "x" = false := by decide
example : fetchEmail "\x7b\"email\":\"x\"\x7d" (some (.jobj [("email", .jstr "x")]))
    = some (.jstr "x") := rfl

end Penpals
